import Mathlib

/-!
Shallow embedding of the route-optimization core in `src/optimasirute.py`
(the genetic-algorithm optimizer and its distance/time model), together
with theorems checking the specification's claims against it.

Modelling conventions:
* Python floats are modelled as rationals (`ℚ`); `round(x, 1)` is modelled
  by `round1` (round to nearest tenth — no claim observes tie behaviour).
* The external `geopy.distance.geodesic(..).km` call is an abstract
  parameter `g : Coord → Coord → ℚ` (the library function is outside the
  repository); everything else is translated from the source.
* Python exceptions (`KeyError` from `LOCATIONS[p]`, `ValueError` from
  `random.randint` on an empty range or `random.sample` with a sample
  larger than its population) are modelled by `Option`: `none` means the
  call raises.
* The pseudo-random source is modelled as an oracle: `random.shuffle`
  results are the caller-supplied initial population, and the per-child
  draws (two tournament samples, the crossover coin and cut point, the
  mutation coin and swap indices) are a `ChildRand` record consumed per
  produced child.  Theorems quantify over all oracle values that the
  corresponding Python draw could produce (`SampleOK`, `RandOK`).
* A Python dict is an association list; `dict.get k default` is lookup
  with default.  `None` and `{}` are both falsy, so the optional
  `traffic_conditions` argument is one `List` parameter with `[]`
  standing for both.
-/

namespace RouteOpt

abbrev Coord := ℚ × ℚ

/-- The `LOCATIONS` table of `src/optimasirute.py` (coordinates transcribed
as decimal rationals). -/
def LOCATIONS : List (String × Coord) :=
  [ ("DEPO", (-6.890682913380755, 107.62539534137673)),
    ("TPS_DAGO", (-6.883993, 107.613144)),
    ("TPS_CIHAMPELAS", (-6.893537, 107.604953)),
    ("TPS_BUAHBATU", (-6.950251, 107.634587)),
    ("TPS_KOPO", (-6.948347, 107.573116)),
    ("TPS_ANTAPANI", (-6.903444, 107.660000)),
    ("TPS_GEDEBAGE", (-6.950000, 107.700000)),
    ("TPS_CIBADUYUT", (-6.978889, 107.589722)),
    ("TPS_KIARACONDONG", (-6.927222, 107.646944)),
    ("TPS_CICADAS", (-6.903889, 107.646389)),
    ("TPS_CICAHEUM", (-6.900000, 107.660000)),
    ("TPA_SARIMUKTI", (-6.800449378428952, 107.34929092078416)) ]

def TPA_NAME : String := "TPA_SARIMUKTI"

def DEPOT_NAME : String := "DEPO"

def POPULATION_SIZE : ℕ := 100

def GENERATIONS : ℕ := 300

def CROSSOVER_RATE : ℚ := 0.85

def MUTATION_RATE : ℚ := 0.05

def ELITISM_COUNT : ℕ := 2

/-- `LOCATIONS[s]` as a partial lookup: `none` models the `KeyError`. -/
def lookupLoc (s : String) : Option Coord := LOCATIONS.lookup s

/-- `calculate_distance`: delegates to the abstract geodesic model `g`. -/
def calculate_distance (g : Coord → Coord → ℚ) (a b : Coord) : ℚ := g a b

/-- `create_distance_matrix`: fills both symmetric entries from the
computation on the index pair `(min i j, max i j)`, as the source's
triangular loop does. -/
def create_distance_matrix (g : Coord → Coord → ℚ) (coords : List Coord) :
    List (List ℚ) :=
  (List.range coords.length).map fun i =>
    (List.range coords.length).map fun j =>
      if i ≤ j then calculate_distance g (coords.getD i (0, 0)) (coords.getD j (0, 0))
      else calculate_distance g (coords.getD j (0, 0)) (coords.getD i (0, 0))

/-- The traffic multiplier:
`1.5 if level == "Heavy" else 1.2 if level == "Moderate" else 1.0`. -/
def traffic_factor (lvl : String) : ℚ :=
  if lvl = "Heavy" then 1.5 else if lvl = "Moderate" then 1.2 else 1

/-- `traffic_conditions.get(f"{a}-{b}", "Light")`. -/
def tcGet (tc : List (String × String)) (k : String) : String :=
  (tc.lookup k).getD "Light"

/-- Truthiness of `consider_traffic and traffic_conditions` (an empty or
absent dict is falsy). -/
def trafficOn (consider : Bool) (tc : List (String × String)) : Bool :=
  consider && !tc.isEmpty

/-- `round(x, 1)`: round to the nearest tenth, over `ℚ`. -/
def round1 (q : ℚ) : ℚ := (round (10 * q) : ℤ) / 10

/-- One reported segment dict. -/
structure Segment where
  segFrom : String
  segTo : String
  distance_km : ℚ
  traffic_level : String
  estimated_time_minutes : ℚ
  deriving DecidableEq, Repr

/-- `calculate_segment_metrics` (lines 49-69). -/
def calculate_segment_metrics (g : Coord → Coord → ℚ) (a b : String)
    (consider : Bool) (tc : List (String × String)) : Option Segment := do
  let ca ← lookupLoc a
  let cb ← lookupLoc b
  let base := calculate_distance g ca cb
  let dur0 := base * 2
  let lvl := if trafficOn consider tc then tcGet tc (a ++ "-" ++ b) else "Light"
  let dur := if trafficOn consider tc then dur0 * traffic_factor lvl else dur0
  pure ⟨a, b, round1 base, lvl, round1 dur⟩

/-- Loop body of `calculate_route_metrics` (lines 77-99): the segment dict
it appends plus the unrounded distance and duration it accumulates. -/
def segRawData (g : Coord → Coord → ℚ) (a b : String) (consider : Bool)
    (tc : List (String × String)) : Option (Segment × ℚ × ℚ) := do
  let ca ← lookupLoc a
  let cb ← lookupLoc b
  let base := calculate_distance g ca cb
  let dur0 := base * 2
  let lvl := if trafficOn consider tc then tcGet tc (a ++ "-" ++ b) else "Light"
  let dur := if trafficOn consider tc then dur0 * traffic_factor lvl else dur0
  pure (⟨a, b, round1 base, lvl, round1 dur⟩, base, dur)

/-- Accumulation over consecutive pairs of the route (unrounded totals;
`ℚ` addition is commutative-associative so the grouping is immaterial). -/
def routeAux (g : Coord → Coord → ℚ) (consider : Bool)
    (tc : List (String × String)) : List String → Option (List Segment × ℚ × ℚ)
  | a :: b :: rest => do
      let (s, d, t) ← segRawData g a b consider tc
      let (ss, ds, ts) ← routeAux g consider tc (b :: rest)
      pure (s :: ss, d + ds, t + ts)
  | _ => pure ([], 0, 0)

/-- `calculate_route_metrics` (lines 71-101): per-segment dicts plus the
totals, rounded to one decimal on return. -/
def calculate_route_metrics (g : Coord → Coord → ℚ) (pts : List String)
    (consider : Bool) (tc : List (String × String)) :
    Option (List Segment × ℚ × ℚ) := do
  let (ss, d, t) ← routeAux g consider tc pts
  pure (ss, round1 d, round1 t)

/-- An individual: a permutation of the interior indices `1..n`. -/
abbrev Chrom := List ℕ

/-- `1.0 / distance if distance > 0 else float('inf')` (line 138). -/
def fitnessOf (d : ℚ) : WithTop ℚ :=
  if 0 < d then ((1 / d : ℚ) : WithTop ℚ) else ⊤

/-- The best-found record: `best_route`, `best_segments`, `best_distance`,
`best_duration`.  `none` models the initial state (`best_route = None`,
`best_distance = inf`); the four variables only ever change together. -/
structure BestRec where
  route : Chrom
  segments : List Segment
  dist : ℚ
  dur : ℚ
  deriving DecidableEq, Repr

/-- `best_distance`: `inf` while no individual has been recorded. -/
def bestDist : Option BestRec → WithTop ℚ
  | none => ⊤
  | some b => (b.dist : WithTop ℚ)

/-- Lines 140-144: replace the record iff `distance < best_distance`. -/
def updateBest (st : Option BestRec) (c : Chrom) (ss : List Segment)
    (d t : ℚ) : Option BestRec :=
  if (d : WithTop ℚ) < bestDist st then some ⟨c, ss, d, t⟩ else st

/-- Line 131-132: `full_route = [0] + route + [len(route_points) - 1]`,
then indexing into `route_points`. -/
def materialize (route_points : List String) (c : Chrom) : List String :=
  ((0 :: c) ++ [route_points.length - 1]).map fun i => route_points.getD i ""

/-- One iteration of the evaluation loop (lines 130-144): the fitness
score appended and the updated best record. -/
def evalOne (g : Coord → Coord → ℚ) (consider : Bool)
    (tc : List (String × String)) (route_points : List String)
    (st : Option BestRec) (c : Chrom) : Option (WithTop ℚ × Option BestRec) := do
  let (segments, distance, duration) ←
    calculate_route_metrics g (materialize route_points c) consider tc
  pure (fitnessOf distance, updateBest st c segments distance duration)

/-- The whole evaluation loop over the population: the `fitness_scores`
list and the final best record. -/
def evalPop (g : Coord → Coord → ℚ) (consider : Bool)
    (tc : List (String × String)) (route_points : List String) :
    List Chrom → Option BestRec → Option (List (WithTop ℚ) × Option BestRec)
  | [], st => pure ([], st)
  | c :: cs, st => do
      let (f, st') ← evalOne g consider tc route_points st c
      let (fs, st'') ← evalPop g consider tc route_points cs st'
      pure (f :: fs, st'')

/-- The random draws consumed while producing one child (lines 154-174):
two 5-element tournament samples, the crossover coin `random.random() <
CROSSOVER_RATE` and cut point, the mutation coin and the swap pair. -/
structure ChildRand where
  sample1 : List ℕ
  sample2 : List ℕ
  crossCoin : Bool
  crossPoint : ℕ
  mutCoin : Bool
  mutI : ℕ
  mutJ : ℕ
  deriving Repr

/-- Python's `max(xs, key=f)`: first element attaining the maximum. -/
def pymaxBy (f : ℕ → WithTop ℚ) : List ℕ → ℕ
  | [] => 0
  | x :: xs => xs.foldl (fun a b => if f a < f b then b else a) x

/-- `population[max(sample, key=lambda i: fitness_scores[i])][:]`. -/
def tournamentPick (pop : List Chrom) (fits : List (WithTop ℚ))
    (sample : List ℕ) : Chrom :=
  pop.getD (pymaxBy (fun i => fits.getD i 0) sample) []

/-- Lines 161-165: `child = parent1[:cp]`, then append each gene of
`parent2` not already present in the growing child. -/
def crossoverChild (p1 p2 : Chrom) (cp : ℕ) : Chrom :=
  p2.foldl (fun child gene => if gene ∈ child then child else child ++ [gene])
    (p1.take cp)

/-- Lines 171-172: `child[i], child[j] = child[j], child[i]` (both values
read from the original list). -/
def swapMut (l : Chrom) (i j : ℕ) : Chrom :=
  (l.set i (l.getD j 0)).set j (l.getD i 0)

/-- One pass of the child-construction loop body (lines 154-174).
`none` models the `ValueError`s: `random.sample(range(len(population)), 5)`
with a population smaller than 5, `random.randint(1, len(parent1) - 1)`
with `len(parent1) < 2`, and `random.sample(range(len(child)), 2)` with
`len(child) < 2`. -/
def makeChild (pop : List Chrom) (fits : List (WithTop ℚ)) (r : ChildRand) :
    Option Chrom :=
  if 5 ≤ pop.length then do
    let parent1 := tournamentPick pop fits r.sample1
    let parent2 := tournamentPick pop fits r.sample2
    let child ←
      if r.crossCoin then
        if 2 ≤ parent1.length then pure (crossoverChild parent1 parent2 r.crossPoint)
        else none
      else pure parent1
    if r.mutCoin then
      if 2 ≤ child.length then pure (swapMut child r.mutI r.mutJ) else none
    else pure child
  else none

/-- Line 150: `sorted(range(len(fitness_scores)), key=lambda i:
fitness_scores[i], reverse=True)[:ELITISM_COUNT]` — a stable descending
sort of the indices by fitness, truncated to the elite count. -/
def eliteIndices (fits : List (WithTop ℚ)) : List ℕ :=
  ((List.range fits.length).mergeSort
    (fun i j => decide (fits.getD j 0 ≤ fits.getD i 0))).take ELITISM_COUNT

/-- The `while len(next_gen) < POPULATION_SIZE` loop (lines 154-174),
as a countdown on the number of children still to produce, consuming one
`ChildRand` each (`none` on an exhausted oracle never arises in the
theorems, which always supply enough draws). -/
def fillChildren (pop : List Chrom) (fits : List (WithTop ℚ)) :
    ℕ → List ChildRand → Option (List Chrom)
  | 0, _ => pure []
  | _ + 1, [] => none
  | k + 1, r :: rs => do
      let c ← makeChild pop fits r
      let cs ← fillChildren pop fits k rs
      pure (c :: cs)

/-- Lines 146-174: the next generation — elitism copies first, then
tournament/crossover/mutation children up to `POPULATION_SIZE`. -/
def nextGenPop (pop : List Chrom) (fits : List (WithTop ℚ))
    (rs : List ChildRand) : Option (List Chrom) :=
  let elites := (eliteIndices fits).map fun i => pop.getD i []
  do
    let rest ← fillChildren pop fits (POPULATION_SIZE - elites.length) rs
    pure (elites ++ rest)

/-- The loop's working state. -/
structure GAState where
  population : List Chrom
  best : Option BestRec
  deriving Repr

/-- One generation (lines 127-176): evaluate the population, then build
the next one. -/
def gaStep (g : Coord → Coord → ℚ) (consider : Bool)
    (tc : List (String × String)) (route_points : List String)
    (st : GAState) (rs : List ChildRand) : Option GAState := do
  let (fits, best') ← evalPop g consider tc route_points st.population st.best
  let pop' ← nextGenPop st.population fits rs
  pure ⟨pop', best'⟩

/-- `for generation in range(GENERATIONS)`, consuming one block of draws
per generation. -/
def runGenerations (g : Coord → Coord → ℚ) (consider : Bool)
    (tc : List (String × String)) (route_points : List String) :
    ℕ → GAState → List (List ChildRand) → Option GAState
  | 0, st, _ => pure st
  | _ + 1, _, [] => none
  | k + 1, st, rs :: rss => do
      let st' ← gaStep g consider tc route_points st rs
      runGenerations g consider tc route_points k st' rss

/-- Line 112: `coords = [LOCATIONS[point] for point in route_points]` —
`none` models the `KeyError` on the first unknown identifier. -/
def lookupAll : List String → Option (List Coord)
  | [] => pure []
  | p :: ps => do
      let c ← lookupLoc p
      let cs ← lookupAll ps
      pure (c :: cs)

/-- Python's `str.startswith`, modelled on the character list (a string
is its list of characters; `String.startsWith` itself does not reduce in
the kernel). -/
def startswith (s pre : String) : Bool := pre.data.isPrefixOf s.data

/-- Line 106: the stops marked full whose id carries the `TPS_` prefix. -/
def tpsFull (tps : List (String × Bool)) : List String :=
  (tps.filter fun kv => kv.2 && startswith kv.1 "TPS_").map Prod.fst

/-- `genetic_algorithm` (lines 103-182).  `initPop` is the oracle's value
for the `POPULATION_SIZE` shuffles of `list(range(1, n + 1))`; `rand`
holds the per-generation child draws. -/
def genetic_algorithm (g : Coord → Coord → ℚ) (tps : List (String × Bool))
    (consider : Bool) (tc : List (String × String)) (initPop : List Chrom)
    (rand : List (List ChildRand)) : Option (List Segment × ℚ × ℚ) :=
  let tps_full := tpsFull tps
  if tps_full.isEmpty then pure ([], 0, 0)
  else do
    let route_points := [DEPOT_NAME] ++ tps_full ++ [TPA_NAME]
    let coords ← lookupAll route_points
    let _matrix := create_distance_matrix g coords
    let st ← runGenerations g consider tc route_points GENERATIONS ⟨initPop, none⟩ rand
    match st.best with
    | some b => pure (b.segments, b.dist, b.dur)
    | none => pure ([], 0, 0)

/-- The base gene list `list(range(1, n + 1))` before shuffling. -/
def baseGene (n : ℕ) : Chrom := List.range' 1 n

/-- Validity of a `random.sample(range(P), 5)` draw. -/
def SampleOK (P : ℕ) (s : List ℕ) : Prop :=
  s.length = 5 ∧ s.Nodup ∧ ∀ i ∈ s, i < P

/-- Validity of one child's draws, for population size `P` and gene
length `n`: whatever the corresponding Python calls could return. -/
def RandOK (P n : ℕ) (r : ChildRand) : Prop :=
  SampleOK P r.sample1 ∧ SampleOK P r.sample2 ∧
  (r.crossCoin → 1 ≤ r.crossPoint ∧ r.crossPoint ≤ n - 1) ∧
  (r.mutCoin → r.mutI < n ∧ r.mutJ < n ∧ r.mutI ≠ r.mutJ)

/-! ### Helper lemmas -/

theorem lookupAll_eq_none {x : String} :
    ∀ {l : List String}, x ∈ l → lookupLoc x = none → lookupAll l = none := by
  intro l hx hnone
  induction l with
  | nil => cases hx
  | cons p ps ih =>
    rcases List.mem_cons.1 hx with rfl | hmem
    · simp [lookupAll, hnone]
    · cases hp : lookupLoc p with
      | none => simp [lookupAll, hp]
      | some c => simp [lookupAll, hp, ih hmem]

theorem mem_tpsFull {k : String} {tps : List (String × Bool)}
    (hk : (k, true) ∈ tps) (hpre : startswith k "TPS_" = true) :
    k ∈ tpsFull tps := by
  unfold tpsFull
  exact List.mem_map.2 ⟨(k, true), List.mem_filter.2 ⟨hk, by simp [hpre]⟩, rfl⟩

theorem range'_map_getD (l : List String) (x : String) (ys : List String) :
    (List.range' 1 l.length).map (fun i => (x :: (l ++ ys)).getD i "") = l := by
  apply List.ext_getElem
  · simp
  · intro n h1 h2
    have hn : n < l.length := by simpa using h2
    have hlt : n < (l ++ ys).length := by
      simp [List.length_append]; omega
    rw [List.getElem_map, List.getElem_range', show 1 + 1 * n = n + 1 by omega,
      List.getD_cons_succ, List.getD_eq_getElem (l ++ ys) "" hlt,
      List.getElem_append_left hn]

theorem materialize_structure (stops : List String) (c : Chrom) :
    materialize (DEPOT_NAME :: (stops ++ [TPA_NAME])) c =
      DEPOT_NAME ::
        (c.map fun i => (DEPOT_NAME :: (stops ++ [TPA_NAME])).getD i "") ++
        [TPA_NAME] := by
  have hlen : (DEPOT_NAME :: (stops ++ [TPA_NAME])).length = stops.length + 2 := by
    simp
  have hlast :
      (DEPOT_NAME :: (stops ++ [TPA_NAME])).getD (stops.length + 1) "" = TPA_NAME := by
    rw [List.getD_cons_succ,
      List.getD_eq_getElem (stops ++ [TPA_NAME]) "" (by simp),
      List.getElem_append_right (Nat.le_refl stops.length)]
    simp
  simp only [materialize, hlen]
  simp [hlast]

theorem materialize_interior_perm {stops : List String} {c : Chrom}
    (h : c.Perm (baseGene stops.length)) :
    (c.map fun i => (DEPOT_NAME :: (stops ++ [TPA_NAME])).getD i "").Perm stops := by
  have := h.map fun i => (DEPOT_NAME :: (stops ++ [TPA_NAME])).getD i ""
  rwa [show (baseGene stops.length).map
      (fun i => (DEPOT_NAME :: (stops ++ [TPA_NAME])).getD i "") = stops from
    range'_map_getD stops DEPOT_NAME [TPA_NAME]] at this

/-! ### Claim theorems -/

/-- C3: with an empty stop set (no member marked full with the `TPS_`
prefix), `genetic_algorithm` short-circuits to `([], 0, 0)`.  The result
holds for every random oracle, in particular for the empty one, which
would make the generational loop fail — so the loop is never entered. -/
theorem claim_C3 (g : Coord → Coord → ℚ) (tps : List (String × Bool))
    (consider : Bool) (tc : List (String × String)) (initPop : List Chrom)
    (rand : List (List ChildRand)) (h : tpsFull tps = []) :
    genetic_algorithm g tps consider tc initPop rand = some ([], 0, 0) := by
  simp [genetic_algorithm, h]

/-- Witness for C3 at the concrete input of one not-full stop. -/
theorem claim_C3_witness :
    tpsFull [("TPS_DAGO", false)] = [] ∧
      genetic_algorithm (fun _ _ => 1) [("TPS_DAGO", false)] false [] [] [] =
        some ([], 0, 0) :=
  ⟨rfl, claim_C3 (fun _ _ => 1) [("TPS_DAGO", false)] false [] [] [] rfl⟩

/-- C2, counterexample: the stop-set member `"ABC"` does not resolve to a
known location, yet the core does not fail fast — it silently drops the
member (the `startswith("TPS_")` filter removes it) and returns the empty
result. -/
theorem claim_C2_counterexample :
    lookupLoc "ABC" = none ∧
      genetic_algorithm (fun _ _ => 1) [("ABC", true)] false [] [] [] =
        some ([], 0, 0) :=
  ⟨rfl, rfl⟩

/-- C2 as amended: only members with the `TPS_` prefix take part.  A full
`TPS_`-prefixed member that does not resolve makes the core fail fast
(before the generational loop); a full `TPS_`-prefixed member that does
resolve is never dropped — it is in the route skeleton and in every
materialized route of a valid individual.  (Full members without the
prefix are silently filtered out, per the counterexample.) -/
theorem claim_C2_amended (g : Coord → Coord → ℚ) (tps : List (String × Bool))
    (consider : Bool) (tc : List (String × String)) (initPop : List Chrom)
    (rand : List (List ChildRand)) :
    ((∃ k, (k, true) ∈ tps ∧ startswith k "TPS_" = true ∧ lookupLoc k = none) →
        genetic_algorithm g tps consider tc initPop rand = none) ∧
      (∀ k, (k, true) ∈ tps → startswith k "TPS_" = true → lookupLoc k ≠ none →
        k ∈ DEPOT_NAME :: (tpsFull tps ++ [TPA_NAME]) ∧
          ∀ c : Chrom, c.Perm (baseGene (tpsFull tps).length) →
            k ∈ materialize (DEPOT_NAME :: (tpsFull tps ++ [TPA_NAME])) c) := by
  constructor
  · rintro ⟨k, hk, hpre, hnone⟩
    have hmem : k ∈ tpsFull tps := mem_tpsFull hk hpre
    have hne : ¬(tpsFull tps).isEmpty = true := by
      cases h : tpsFull tps with
      | nil => rw [h] at hmem; cases hmem
      | cons a l => simp [h]
    have hskel : k ∈ DEPOT_NAME :: (tpsFull tps ++ [TPA_NAME]) :=
      List.mem_cons_of_mem _ (List.mem_append_left _ hmem)
    have hall : lookupAll (DEPOT_NAME :: (tpsFull tps ++ [TPA_NAME])) = none :=
      lookupAll_eq_none hskel hnone
    simp only [genetic_algorithm, hne, Bool.false_eq_true, if_false]
    simp only [List.singleton_append, List.cons_append, List.nil_append]
    rw [hall]
    rfl
  · intro k hk hpre _
    have hmem : k ∈ tpsFull tps := mem_tpsFull hk hpre
    refine ⟨List.mem_cons_of_mem _ (List.mem_append_left _ hmem), ?_⟩
    intro c hc
    rw [materialize_structure]
    exact List.mem_cons_of_mem _
      (List.mem_append_left _ ((materialize_interior_perm hc).mem_iff.2 hmem))

/-- Witness for C2's amended claim: `"TPS_NOWHERE"` is full, has the
prefix, does not resolve — the run fails fast; `"TPS_DAGO"` resolves and
is in the skeleton and in the materialized route of the identity
individual. -/
theorem claim_C2_amended_witness :
    genetic_algorithm (fun _ _ => 1) [("TPS_NOWHERE", true)] false [] [] [] =
        none ∧
      "TPS_DAGO" ∈ DEPOT_NAME ::
        (tpsFull [("TPS_DAGO", true)] ++ [TPA_NAME]) := by
  constructor
  · exact (claim_C2_amended (fun _ _ => 1) [("TPS_NOWHERE", true)] false [] [] []).1
      ⟨"TPS_NOWHERE", by simp, rfl, rfl⟩
  · exact ((claim_C2_amended (fun _ _ => 1) [("TPS_DAGO", true)] false [] [] []).2
      "TPS_DAGO" (by simp) rfl (by rw [show lookupLoc "TPS_DAGO" =
        some (-6.883993, 107.613144) from rfl]; simp)).1

/-- The traffic level the segment computation chooses for the directed
pair `(a, b)` (lines 57-59 and 84-86). -/
def segLevel (a b : String) (consider : Bool) (tc : List (String × String)) :
    String :=
  if trafficOn consider tc then tcGet tc (a ++ "-" ++ b) else "Light"

/-- C6: the baseline time is `distance * 2` minutes (30 km/h), the
multiplier is exactly 1.0 / 1.2 / 1.5 for Light / Moderate / Heavy, and
the level is Light when traffic consideration is off or the directed pair
has no lookup entry; the route evaluator's inline segment computation
agrees with `calculate_segment_metrics`. -/
theorem claim_C6 (g : Coord → Coord → ℚ) (a b : String) (ca cb : Coord)
    (consider : Bool) (tc : List (String × String))
    (ha : lookupLoc a = some ca) (hb : lookupLoc b = some cb) :
    calculate_segment_metrics g a b consider tc =
        some ⟨a, b, round1 (calculate_distance g ca cb), segLevel a b consider tc,
          round1 (calculate_distance g ca cb * 2 *
            traffic_factor (segLevel a b consider tc))⟩ ∧
      traffic_factor "Light" = 1 ∧ traffic_factor "Moderate" = 1.2 ∧
      traffic_factor "Heavy" = 1.5 ∧
      ((consider = false ∨ tc.lookup (a ++ "-" ++ b) = none) →
        segLevel a b consider tc = "Light") ∧
      (segRawData g a b consider tc).map Prod.fst =
        calculate_segment_metrics g a b consider tc := by
  refine ⟨?_, rfl, rfl, rfl, ?_, ?_⟩
  · by_cases h : trafficOn consider tc = true
    · simp [calculate_segment_metrics, ha, hb, segLevel, h]
    · simp [calculate_segment_metrics, ha, hb, segLevel, h, traffic_factor]
  · rintro (hc | hc)
    · have : trafficOn consider tc = false := by simp [trafficOn, hc]
      simp [segLevel, this]
    · by_cases h : trafficOn consider tc = true
      · simp [segLevel, h, tcGet, hc]
      · simp [segLevel, h]
  · simp [segRawData, calculate_segment_metrics, ha, hb]

/-- Witness for C6 at `DEPO → TPS_DAGO` with a Heavy entry for the pair. -/
theorem claim_C6_witness :
    calculate_segment_metrics (fun _ _ => 1) "DEPO" "TPS_DAGO" true
        [("DEPO-TPS_DAGO", "Heavy")] =
      some ⟨"DEPO", "TPS_DAGO", 1,
        segLevel "DEPO" "TPS_DAGO" true [("DEPO-TPS_DAGO", "Heavy")],
        3⟩ := by
  have h := (claim_C6 (fun _ _ => 1) "DEPO" "TPS_DAGO"
    (-6.890682913380755, 107.62539534137673) (-6.883993, 107.613144) true
    [("DEPO-TPS_DAGO", "Heavy")] rfl rfl).1
  have hl : segLevel "DEPO" "TPS_DAGO" true [("DEPO-TPS_DAGO", "Heavy")] =
      "Heavy" := rfl
  rw [h, hl]
  have h1 : round1 (calculate_distance (fun _ _ => (1 : ℚ))
      (-6.890682913380755, 107.62539534137673) (-6.883993, 107.613144)) = 1 := by
    rw [calculate_distance, round1, round_eq]
    norm_num
  have h2 : round1 (calculate_distance (fun _ _ => (1 : ℚ))
      (-6.890682913380755, 107.62539534137673) (-6.883993, 107.613144) * 2 *
        traffic_factor "Heavy") = 3 := by
    rw [calculate_distance, round1, round_eq, traffic_factor]
    norm_num
  rw [h1, h2]

/-- C9: every reported per-segment distance and time is the rounding of
the unrounded value, the totals accumulate the unrounded values, the
returned totals are the rounding of those sums — and on a concrete route
that differs from the sum of the rounded segment values. -/
theorem claim_C9 (g : Coord → Coord → ℚ) (consider : Bool)
    (tc : List (String × String)) :
    (∀ a b s d0 t0, segRawData g a b consider tc = some (s, d0, t0) →
        s.distance_km = round1 d0 ∧ s.estimated_time_minutes = round1 t0) ∧
      (∀ a b rest s d0 t0 ss d t,
        segRawData g a b consider tc = some (s, d0, t0) →
        routeAux g consider tc (b :: rest) = some (ss, d, t) →
        routeAux g consider tc (a :: b :: rest) =
          some (s :: ss, d0 + d, t0 + t)) ∧
      (∀ pts ss d t, routeAux g consider tc pts = some (ss, d, t) →
        calculate_route_metrics g pts consider tc =
          some (ss, round1 d, round1 t)) ∧
      (∃ g9 : Coord → Coord → ℚ, ∃ ss d t,
        calculate_route_metrics g9
            ["DEPO", "TPS_DAGO", "TPA_SARIMUKTI"] false [] = some (ss, d, t) ∧
          d ≠ (ss.map Segment.distance_km).sum) := by
  refine ⟨?_, ?_, ?_, ?_⟩
  · intro a b s d0 t0 h
    rw [segRawData] at h
    cases hca : lookupLoc a with
    | none => rw [hca] at h; simp at h
    | some ca =>
      cases hcb : lookupLoc b with
      | none => rw [hca, hcb] at h; simp at h
      | some cb =>
        rw [hca, hcb] at h
        simp only [Option.bind_eq_bind, Option.pure_def, Option.some_bind] at h
        cases h
        exact ⟨rfl, rfl⟩
  · intro a b rest s d0 t0 ss d t h1 h2
    simp [routeAux, h1, h2]
  · intro pts ss d t h
    simp [calculate_route_metrics, h]
  · refine ⟨fun _ _ => 1/20,
      [⟨"DEPO", "TPS_DAGO", round1 (1/20), "Light", round1 (1/20 * 2)⟩,
       ⟨"TPS_DAGO", "TPA_SARIMUKTI", round1 (1/20), "Light", round1 (1/20 * 2)⟩],
      round1 (1/20 + (1/20 + 0)), round1 (1/20 * 2 + (1/20 * 2 + 0)),
      by rfl, ?_⟩
    simp only [List.map_cons, List.map_nil, List.sum_cons, List.sum_nil]
    rw [round1, round1, round_eq, round_eq]
    norm_num

/-- Witness for C9: the second and third conjuncts applied on the
concrete two-segment route with constant distance 1/20. -/
theorem claim_C9_witness :
    calculate_route_metrics (fun _ _ => 1/20)
        ["DEPO", "TPS_DAGO", "TPA_SARIMUKTI"] false [] =
      some ([⟨"DEPO", "TPS_DAGO", round1 (1/20), "Light", round1 (1/20 * 2)⟩,
             ⟨"TPS_DAGO", "TPA_SARIMUKTI", round1 (1/20), "Light",
               round1 (1/20 * 2)⟩],
        round1 (1/20 + (1/20 + 0)), round1 (1/20 * 2 + (1/20 * 2 + 0))) := by
  have h3 := (claim_C9 (fun _ _ => 1/20) false []).2.2.1
  exact h3 ["DEPO", "TPS_DAGO", "TPA_SARIMUKTI"] _ _ _ (by rfl)

/-- A concrete distance model on which two interior orderings have
different true totals but the same one-decimal rounding: the depot-side
legs measure 1 km and 1.04 km, the remaining legs coincide. -/
def g10 : Coord → Coord → ℚ := fun p q =>
  if p = ((-6.890682913380755 : ℚ), (107.62539534137673 : ℚ)) then
    (if q = ((-6.883993 : ℚ), (107.613144 : ℚ)) then 1 else 26/25)
  else if q = ((-6.800449378428952 : ℚ), (107.34929092078416 : ℚ)) then 3
  else 2

/-- The route skeleton for the two-stop run behind C10. -/
def rp10 : List String := ["DEPO", "TPS_DAGO", "TPS_CIHAMPELAS", "TPA_SARIMUKTI"]

/-- C10: under `g10`, the two interior orderings have true totals 6 and
6.04 km, yet `calculate_route_metrics` returns 6.0 for both, the fitness
computed by the loop is equal for both, and neither can strictly improve
the best-found record over the other; the returned total is the rounded
value. -/
theorem claim_C10 :
    (routeAux g10 false [] (materialize rp10 [1, 2])).map (fun r => r.2.1) =
        some 6 ∧
      (routeAux g10 false [] (materialize rp10 [2, 1])).map (fun r => r.2.1) =
        some (151/25) ∧
      (6 : ℚ) ≠ 151/25 ∧
      (calculate_route_metrics g10 (materialize rp10 [1, 2]) false []).map
          (fun r => r.2.1) = some 6 ∧
      (calculate_route_metrics g10 (materialize rp10 [2, 1]) false []).map
          (fun r => r.2.1) = some 6 ∧
      (evalOne g10 false [] rp10 none [1, 2]).map Prod.fst =
        some (fitnessOf 6) ∧
      (evalOne g10 false [] rp10 none [2, 1]).map Prod.fst =
        some (fitnessOf 6) ∧
      updateBest (some ⟨[1, 2], [], 6, 12⟩) [2, 1] [] 6 12 =
        some ⟨[1, 2], [], 6, 12⟩ ∧
      updateBest (some ⟨[2, 1], [], 6, 12⟩) [1, 2] [] 6 12 =
        some ⟨[2, 1], [], 6, 12⟩ := by
  have hD : lookupLoc "DEPO" =
      some (-6.890682913380755, 107.62539534137673) := rfl
  have hA : lookupLoc "TPS_DAGO" = some (-6.883993, 107.613144) := rfl
  have hC : lookupLoc "TPS_CIHAMPELAS" = some (-6.893537, 107.604953) := rfl
  have hT : lookupLoc "TPA_SARIMUKTI" =
      some (-6.800449378428952, 107.34929092078416) := rfl
  have e1 : g10 (-6.890682913380755, 107.62539534137673)
      (-6.883993, 107.613144) = 1 := by
    norm_num [g10, Prod.mk.injEq]
  have e2 : g10 (-6.883993, 107.613144) (-6.893537, 107.604953) = 2 := by
    norm_num [g10, Prod.mk.injEq]
  have e3 : g10 (-6.893537, 107.604953)
      (-6.800449378428952, 107.34929092078416) = 3 := by
    norm_num [g10, Prod.mk.injEq]
  have e4 : g10 (-6.890682913380755, 107.62539534137673)
      (-6.893537, 107.604953) = 26/25 := by
    norm_num [g10, Prod.mk.injEq]
  have e5 : g10 (-6.893537, 107.604953) (-6.883993, 107.613144) = 2 := by
    norm_num [g10, Prod.mk.injEq]
  have e6 : g10 (-6.883993, 107.613144)
      (-6.800449378428952, 107.34929092078416) = 3 := by
    norm_num [g10, Prod.mk.injEq]
  have m1 : materialize rp10 [1, 2] =
      ["DEPO", "TPS_DAGO", "TPS_CIHAMPELAS", "TPA_SARIMUKTI"] := rfl
  have m2 : materialize rp10 [2, 1] =
      ["DEPO", "TPS_CIHAMPELAS", "TPS_DAGO", "TPA_SARIMUKTI"] := rfl
  have ra1 : routeAux g10 false []
      ["DEPO", "TPS_DAGO", "TPS_CIHAMPELAS", "TPA_SARIMUKTI"] =
      some ([⟨"DEPO", "TPS_DAGO", round1 1, "Light", round1 (1 * 2)⟩,
             ⟨"TPS_DAGO", "TPS_CIHAMPELAS", round1 2, "Light", round1 (2 * 2)⟩,
             ⟨"TPS_CIHAMPELAS", "TPA_SARIMUKTI", round1 3, "Light",
               round1 (3 * 2)⟩],
        1 + (2 + (3 + 0)), 1 * 2 + (2 * 2 + (3 * 2 + 0))) := by
    simp [routeAux, segRawData, hD, hA, hC, hT, trafficOn, calculate_distance,
      e1, e2, e3]
  have ra2 : routeAux g10 false []
      ["DEPO", "TPS_CIHAMPELAS", "TPS_DAGO", "TPA_SARIMUKTI"] =
      some ([⟨"DEPO", "TPS_CIHAMPELAS", round1 (26/25), "Light",
               round1 (26/25 * 2)⟩,
             ⟨"TPS_CIHAMPELAS", "TPS_DAGO", round1 2, "Light", round1 (2 * 2)⟩,
             ⟨"TPS_DAGO", "TPA_SARIMUKTI", round1 3, "Light", round1 (3 * 2)⟩],
        26/25 + (2 + (3 + 0)), 26/25 * 2 + (2 * 2 + (3 * 2 + 0))) := by
    simp [routeAux, segRawData, hD, hA, hC, hT, trafficOn, calculate_distance,
      e4, e5, e6]
  refine ⟨?_, ?_, by norm_num, ?_, ?_, ?_, ?_, ?_, ?_⟩
  · rw [m1, ra1]
    norm_num
  · rw [m2, ra2]
    norm_num
  · have h6 : round1 (1 + (2 + 3) : ℚ) = 6 := by
      rw [round1, round_eq]; norm_num
    rw [calculate_route_metrics, m1, ra1]
    simp [h6]
  · have h6 : round1 (26/25 + (2 + 3) : ℚ) = 6 := by
      rw [round1, round_eq]; norm_num
    rw [calculate_route_metrics, m2, ra2]
    simp [h6]
  · have h6 : round1 (1 + (2 + 3) : ℚ) = 6 := by
      rw [round1, round_eq]; norm_num
    rw [evalOne, calculate_route_metrics, m1, ra1]
    simp [h6]
  · have h6 : round1 (26/25 + (2 + 3) : ℚ) = 6 := by
      rw [round1, round_eq]; norm_num
    rw [evalOne, calculate_route_metrics, m2, ra2]
    simp [h6]
  · simp [updateBest, bestDist]
  · simp [updateBest, bestDist]

/-- C7: for every individual evaluated by the loop, the appended fitness
score is `1 / total_distance` when the (rounded) total distance is
positive and `+infinity` otherwise; the reciprocal branch is never taken
at a non-positive distance. -/
theorem claim_C7 (g : Coord → Coord → ℚ) (consider : Bool)
    (tc : List (String × String)) (rp : List String) :
    (∀ pop st fits st', evalPop g consider tc rp pop st = some (fits, st') →
        List.Forall₂ (fun c f => ∃ ss d t,
          calculate_route_metrics g (materialize rp c) consider tc =
              some (ss, d, t) ∧
            f = if 0 < d then ((1 / d : ℚ) : WithTop ℚ) else ⊤) pop fits) ∧
      (∀ d : ℚ, ¬0 < d → fitnessOf d = ⊤) := by
  constructor
  · intro pop
    induction pop with
    | nil =>
      intro st fits st' h
      rw [evalPop] at h
      cases h
      exact List.Forall₂.nil
    | cons c cs ih =>
      intro st fits st' h
      rw [evalPop, evalOne] at h
      cases hm : calculate_route_metrics g (materialize rp c) consider tc with
      | none => rw [hm] at h; simp at h
      | some v =>
        obtain ⟨ss, d, t⟩ := v
        rw [hm] at h
        simp only [Option.bind_eq_bind, Option.pure_def, Option.some_bind] at h
        cases hrec : evalPop g consider tc rp cs
            (updateBest st c ss d t) with
        | none => rw [hrec] at h; simp at h
        | some w =>
          obtain ⟨fs, st2⟩ := w
          rw [hrec] at h
          simp only [Option.some_bind] at h
          cases h
          exact List.Forall₂.cons ⟨ss, d, t, hm, rfl⟩ (ih _ _ _ hrec)
  · intro d hd
    simp [fitnessOf, hd]

/-- Witness for C7: one individual on the two-segment route with constant
distance 1, evaluated concretely. -/
theorem claim_C7_witness :
    List.Forall₂ (fun c f => ∃ ss d t,
      calculate_route_metrics (fun _ _ => 1)
          (materialize ["DEPO", "TPS_DAGO", "TPA_SARIMUKTI"] c) false [] =
          some (ss, d, t) ∧
        f = if 0 < d then ((1 / d : ℚ) : WithTop ℚ) else ⊤)
      [[1]] [fitnessOf (round1 (1 + (1 + 0)))] := by
  refine (claim_C7 (fun _ _ => 1) false []
    ["DEPO", "TPS_DAGO", "TPA_SARIMUKTI"]).1 [[1]] none _
      (some ⟨[1], [⟨"DEPO", "TPS_DAGO", round1 1, "Light", round1 (1 * 2)⟩,
        ⟨"TPS_DAGO", "TPA_SARIMUKTI", round1 1, "Light", round1 (1 * 2)⟩],
        round1 (1 + (1 + 0)), round1 (1 * 2 + (1 * 2 + 0))⟩) ?_
  have hcm : calculate_route_metrics (fun _ _ => 1)
      (materialize ["DEPO", "TPS_DAGO", "TPA_SARIMUKTI"] [1]) false [] =
      some ([⟨"DEPO", "TPS_DAGO", round1 1, "Light", round1 (1 * 2)⟩,
        ⟨"TPS_DAGO", "TPA_SARIMUKTI", round1 1, "Light", round1 (1 * 2)⟩],
        round1 (1 + (1 + 0)), round1 (1 * 2 + (1 * 2 + 0))) := rfl
  rw [evalPop, evalOne, hcm]
  simp only [Option.bind_eq_bind, Option.pure_def, Option.some_bind]
  rw [evalPop]
  simp [updateBest, bestDist, fitnessOf]

/-- C8: the best-found record is replaced exactly when an evaluated
individual's distance is strictly below the current best, persists
otherwise (also across the generation transition, which only changes it
through the evaluation pass), and is what `genetic_algorithm` returns
after the loop. -/
theorem claim_C8 (g : Coord → Coord → ℚ) (consider : Bool)
    (tc : List (String × String)) (rp : List String) :
    (∀ st c ss (d t : ℚ), ((d : WithTop ℚ) < bestDist st →
          updateBest st c ss d t = some ⟨c, ss, d, t⟩) ∧
        (¬(d : WithTop ℚ) < bestDist st → updateBest st c ss d t = st)) ∧
      (∀ pop st fits st', evalPop g consider tc rp pop st = some (fits, st') →
        bestDist st' ≤ bestDist st ∧
          (st' = st ∨ ∃ c ∈ pop, ∃ ss d t,
            calculate_route_metrics g (materialize rp c) consider tc =
                some (ss, d, t) ∧
              st' = some ⟨c, ss, d, t⟩ ∧ (d : WithTop ℚ) < bestDist st)) ∧
      (∀ st rs st2, gaStep g consider tc rp st rs = some st2 →
        ∃ fits, evalPop g consider tc rp st.population st.best =
          some (fits, st2.best)) ∧
      (∀ tps initPop rand stf b,
        runGenerations g consider tc ([DEPOT_NAME] ++ tpsFull tps ++ [TPA_NAME])
            GENERATIONS ⟨initPop, none⟩ rand = some stf →
        stf.best = some b → (tpsFull tps).isEmpty = false →
        lookupAll ([DEPOT_NAME] ++ tpsFull tps ++ [TPA_NAME]) ≠ none →
        genetic_algorithm g tps consider tc initPop rand =
          some (b.segments, b.dist, b.dur)) := by
  refine ⟨?_, ?_, ?_, ?_⟩
  · intro st c ss d t
    constructor
    · intro hlt
      rw [updateBest, if_pos hlt]
    · intro hge
      rw [updateBest, if_neg hge]
  · intro pop
    induction pop with
    | nil =>
      intro st fits st' h
      rw [evalPop] at h
      cases h
      exact ⟨le_refl _, Or.inl rfl⟩
    | cons c cs ih =>
      intro st fits st' h
      rw [evalPop, evalOne] at h
      cases hm : calculate_route_metrics g (materialize rp c) consider tc with
      | none => rw [hm] at h; simp at h
      | some v =>
        obtain ⟨ss, d, t⟩ := v
        rw [hm] at h
        simp only [Option.bind_eq_bind, Option.pure_def, Option.some_bind] at h
        cases hrec : evalPop g consider tc rp cs
            (updateBest st c ss d t) with
        | none => rw [hrec] at h; simp at h
        | some w =>
          obtain ⟨fs, st2⟩ := w
          rw [hrec] at h
          simp only [Option.some_bind] at h
          cases h
          obtain ⟨hle, hcases⟩ := ih _ _ _ hrec
          by_cases hlt : (d : WithTop ℚ) < bestDist st
          · have hup : updateBest st c ss d t = some ⟨c, ss, d, t⟩ := by
              rw [updateBest, if_pos hlt]
            rw [hup] at hle hcases
            refine ⟨hle.trans (by rw [bestDist]; exact hlt.le), ?_⟩
            rcases hcases with h1 | ⟨c', hc', ss', d', t', hm', hst', hlt'⟩
            · exact Or.inr ⟨c, List.mem_cons_self c cs, ss, d, t, hm, h1, hlt⟩
            · refine Or.inr ⟨c', List.mem_cons_of_mem c hc', ss', d', t',
                hm', hst', ?_⟩
              calc ((d' : WithTop ℚ)) < bestDist (some ⟨c, ss, d, t⟩) := hlt'
                _ ≤ bestDist st := by rw [bestDist]; exact hlt.le
          · have hup : updateBest st c ss d t = st := by
              rw [updateBest, if_neg hlt]
            rw [hup] at hle hcases
            refine ⟨hle, ?_⟩
            rcases hcases with h1 | ⟨c', hc', ss', d', t', hm', hst', hlt'⟩
            · exact Or.inl h1
            · exact Or.inr ⟨c', List.mem_cons_of_mem c hc', ss', d', t',
                hm', hst', hlt'⟩
  · intro st rs st2 h
    rw [gaStep] at h
    cases hev : evalPop g consider tc rp st.population st.best with
    | none => rw [hev] at h; simp at h
    | some w =>
      obtain ⟨fits, best'⟩ := w
      rw [hev] at h
      simp only [Option.bind_eq_bind, Option.pure_def, Option.some_bind] at h
      cases hng : nextGenPop st.population fits rs with
      | none => rw [hng] at h; simp at h
      | some pop' =>
        rw [hng] at h
        simp only [Option.some_bind] at h
        cases h
        exact ⟨fits, rfl⟩
  · intro tps initPop rand stf b hrun hb hne hlook
    rw [genetic_algorithm]
    rw [if_neg (by simp [hne])]
    cases hl : lookupAll ([DEPOT_NAME] ++ tpsFull tps ++ [TPA_NAME]) with
    | none => exact absurd hl hlook
    | some coords =>
      simp only [Option.bind_eq_bind, Option.pure_def, Option.some_bind]
      rw [hrun]
      simp only [Option.some_bind]
      rw [hb, hl]
      simp only [Option.some_bind]

/-- Witness for C8: the update rule applied concretely — the first
record always replaces the infinite initial best, and a strictly larger
distance never replaces the record. -/
theorem claim_C8_witness :
    updateBest none [1] [] 5 10 = some ⟨[1], [], 5, 10⟩ ∧
      updateBest (some ⟨[1], [], 5, 10⟩) [2] [] 7 14 = some ⟨[1], [], 5, 10⟩ :=
  ⟨((claim_C8 (fun _ _ => 1) false [] []).1 none [1] [] 5 10).1
      (by simp only [bestDist]; exact WithTop.coe_lt_top 5),
    ((claim_C8 (fun _ _ => 1) false [] []).1
        (some ⟨[1], [], 5, 10⟩) [2] [] 7 14).2
      (by simp only [bestDist, not_lt]; exact_mod_cast by norm_num : ¬((7:ℚ) : WithTop ℚ) < bestDist (some ⟨[1], [], 5, 10⟩))⟩

/-! ### Permutation helper lemmas for the genetic operators -/

theorem crossover_foldl :
    ∀ (p2 : List ℕ) (c0 : List ℕ), p2.Nodup →
      p2.foldl (fun child gene => if gene ∈ child then child
          else child ++ [gene]) c0 =
        c0 ++ p2.filter fun gene => decide (gene ∉ c0) := by
  intro p2
  induction p2 with
  | nil => intro c0 _; simp
  | cons a gs ih =>
    intro c0 hnod
    rcases List.nodup_cons.1 hnod with ⟨hg, hgs⟩
    rw [List.foldl_cons, List.filter_cons]
    by_cases hmem : a ∈ c0
    · rw [if_pos hmem, ih c0 hgs]
      simp [hmem]
    · rw [if_neg hmem, ih _ hgs]
      rw [if_pos (by simp [hmem]), List.append_assoc, List.singleton_append]
      congr 1
      congr 1
      apply List.filter_congr
      intro x hx
      have hxa : x ≠ a := fun h => hg (h ▸ hx)
      simp [List.mem_append, hxa]

theorem crossoverChild_perm {n : ℕ} {p1 p2 : Chrom}
    (h1 : p1.Perm (baseGene n)) (h2 : p2.Perm (baseGene n)) (cp : ℕ) :
    (crossoverChild p1 p2 cp).Perm (baseGene n) := by
  have hbase : (baseGene n).Nodup := List.nodup_range' 1 n
  have hp1 : p1.Nodup := h1.symm.nodup hbase
  have hp2 : p2.Nodup := h2.symm.nodup hbase
  have ht : (p1.take cp).Nodup := (List.take_sublist cp p1).nodup hp1
  rw [crossoverChild, crossover_foldl p2 _ hp2]
  have hfil : (p2.filter fun gene => decide (gene ∉ p1.take cp)).Nodup :=
    hp2.filter _
  have hdisj : (p1.take cp).Disjoint
      (p2.filter fun gene => decide (gene ∉ p1.take cp)) := by
    intro x hx hxf
    rcases List.mem_filter.1 hxf with ⟨_, hdec⟩
    exact (of_decide_eq_true hdec) hx
  refine (List.perm_ext_iff_of_nodup (ht.append hfil hdisj) hbase).2 ?_
  intro x
  simp only [List.mem_append, List.mem_filter, decide_eq_true_eq]
  constructor
  · rintro (hx | ⟨hx2, _⟩)
    · exact h1.mem_iff.1 (List.take_subset cp p1 hx)
    · exact h2.mem_iff.1 hx2
  · intro hx
    by_cases hxt : x ∈ p1.take cp
    · exact Or.inl hxt
    · exact Or.inr ⟨h2.mem_iff.2 hx, hxt⟩

theorem getD_set_cons_perm (x : ℕ) :
    ∀ (xs : List ℕ) (k : ℕ), k < xs.length →
      (xs.getD k 0 :: xs.set k x).Perm (x :: xs) := by
  intro xs
  induction xs with
  | nil => intro k hk; simp at hk
  | cons y ys ih =>
    intro k hk
    cases k with
    | zero => exact List.Perm.swap x y ys
    | succ m =>
      have hm : m < ys.length := by simpa using hk
      simp only [List.getD_cons_succ, List.set_cons_succ]
      exact ((List.Perm.swap y (ys.getD m 0) (ys.set m x)).trans
        ((ih m hm).cons y)).trans (List.Perm.swap x y ys)

theorem swapMut_perm_lt :
    ∀ (l : List ℕ) (i j : ℕ), i < j → j < l.length →
      (swapMut l i j).Perm l := by
  intro l
  induction l with
  | nil => intro i j _ hj; simp at hj
  | cons x xs ih =>
    intro i j hij hj
    cases i with
    | zero =>
      cases j with
      | zero => exact absurd hij (lt_irrefl 0)
      | succ k =>
        have hk : k < xs.length := by simpa using hj
        exact getD_set_cons_perm x xs k hk
    | succ m =>
      cases j with
      | zero => exact absurd hij (by omega)
      | succ k =>
        have hmk : m < k := Nat.succ_lt_succ_iff.1 hij
        have hk : k < xs.length := by simpa using hj
        exact (ih m k hmk hk).cons x

theorem swapMut_comm (l : List ℕ) (i j : ℕ) (hij : i ≠ j) :
    swapMut l i j = swapMut l j i := by
  rw [swapMut, swapMut, List.set_comm _ _ _ hij]

theorem swapMut_perm (l : List ℕ) (i j : ℕ) (hi : i < l.length)
    (hj : j < l.length) (hij : i ≠ j) : (swapMut l i j).Perm l := by
  rcases lt_or_gt_of_ne hij with h | h
  · exact swapMut_perm_lt l i j h hj
  · rw [swapMut_comm l i j hij]
    exact swapMut_perm_lt l j i h hi

theorem foldl_max_mem (f : ℕ → WithTop ℚ) :
    ∀ (xs : List ℕ) (a : ℕ),
      xs.foldl (fun a b => if f a < f b then b else a) a ∈ a :: xs := by
  intro xs
  induction xs with
  | nil => intro a; simp
  | cons b bs ih =>
    intro a
    rw [List.foldl_cons]
    by_cases h : f a < f b
    · rw [if_pos h]
      exact List.mem_cons_of_mem a (ih b)
    · rw [if_neg h]
      rcases List.mem_cons.1 (ih a) with h1 | h1
      · rw [h1]
        exact List.mem_cons_self _ _
      · exact List.mem_cons_of_mem a (List.mem_cons_of_mem b h1)

theorem pymaxBy_mem (f : ℕ → WithTop ℚ) (x : ℕ) (xs : List ℕ) :
    pymaxBy f (x :: xs) ∈ x :: xs :=
  foldl_max_mem f xs x

theorem tournamentPick_mem {pop : List Chrom} {fits : List (WithTop ℚ)}
    {sample : List ℕ} (hs : sample ≠ [])
    (hlt : ∀ i ∈ sample, i < pop.length) :
    tournamentPick pop fits sample ∈ pop := by
  cases sample with
  | nil => exact absurd rfl hs
  | cons x xs =>
    have hm := pymaxBy_mem (fun i => fits.getD i 0) x xs
    have hidx : pymaxBy (fun i => fits.getD i 0) (x :: xs) < pop.length :=
      hlt _ hm
    rw [tournamentPick, List.getD_eq_getElem _ _ hidx]
    exact List.getElem_mem hidx

theorem mutStep_perm {n : ℕ} {child c : Chrom} {i j : ℕ} {coin : Bool}
    (hchild : child.Perm (baseGene n))
    (hmut : coin = true → i < n ∧ j < n ∧ i ≠ j)
    (h : (if coin = true then
        (if 2 ≤ child.length then some (swapMut child i j) else none)
      else some child) = some c) :
    c.Perm (baseGene n) := by
  have hlen : child.length = n := by
    rw [hchild.length_eq, baseGene, List.length_range']
  by_cases hco : coin = true
  · rw [if_pos hco] at h
    obtain ⟨hi, hj, hij⟩ := hmut hco
    by_cases h2 : 2 ≤ child.length
    · rw [if_pos h2] at h
      cases h
      exact (swapMut_perm child i j (by omega) (by omega) hij).trans hchild
    · rw [if_neg h2] at h
      exact Option.noConfusion h
  · rw [if_neg hco] at h
    cases h
    exact hchild

theorem makeChild_perm {n : ℕ} {pop : List Chrom} {fits : List (WithTop ℚ)}
    {r : ChildRand} {c : Chrom}
    (hpop : ∀ x ∈ pop, x.Perm (baseGene n))
    (hr : RandOK pop.length n r)
    (h : makeChild pop fits r = some c) : c.Perm (baseGene n) := by
  obtain ⟨hs1, hs2, _, hmut⟩ := hr
  rw [makeChild] at h
  by_cases h5 : 5 ≤ pop.length
  swap
  · rw [if_neg h5] at h
    exact Option.noConfusion h
  rw [if_pos h5] at h
  have hne1 : r.sample1 ≠ [] := by
    intro hnil
    rw [hnil] at hs1
    simp [SampleOK] at hs1
  have hne2 : r.sample2 ≠ [] := by
    intro hnil
    rw [hnil] at hs2
    simp [SampleOK] at hs2
  have hp1 : (tournamentPick pop fits r.sample1).Perm (baseGene n) :=
    hpop _ (tournamentPick_mem hne1 hs1.2.2)
  have hp2 : (tournamentPick pop fits r.sample2).Perm (baseGene n) :=
    hpop _ (tournamentPick_mem hne2 hs2.2.2)
  simp only [Option.pure_def] at h
  by_cases hcc : r.crossCoin = true
  · by_cases h2 : 2 ≤ (tournamentPick pop fits r.sample1).length
    · rw [if_pos hcc, if_pos h2] at h
      simp only [Option.bind_eq_bind, Option.pure_def, Option.some_bind] at h
      exact mutStep_perm (crossoverChild_perm hp1 hp2 r.crossPoint) hmut h
    · rw [if_pos hcc, if_neg h2] at h
      simp only [Option.bind_eq_bind, Option.pure_def, Option.none_bind] at h
      exact Option.noConfusion h
  · rw [if_neg hcc] at h
    simp only [Option.bind_eq_bind, Option.pure_def, Option.some_bind] at h
    exact mutStep_perm hp1 hmut h

theorem fillChildren_perm {n : ℕ} {pop : List Chrom} {fits : List (WithTop ℚ)}
    (hpop : ∀ x ∈ pop, x.Perm (baseGene n)) :
    ∀ (k : ℕ) (rs : List ChildRand), (∀ r ∈ rs, RandOK pop.length n r) →
      ∀ out, fillChildren pop fits k rs = some out →
        ∀ c ∈ out, c.Perm (baseGene n) := by
  intro k
  induction k with
  | zero =>
    intro rs _ out h c hc
    rw [fillChildren] at h
    cases h
    cases hc
  | succ m ih =>
    intro rs hrs out h c hc
    cases rs with
    | nil =>
      rw [fillChildren] at h
      exact Option.noConfusion h
    | cons r rest =>
      rw [fillChildren] at h
      cases hmc : makeChild pop fits r with
      | none => rw [hmc] at h; simp at h
      | some c0 =>
        rw [hmc] at h
        simp only [Option.bind_eq_bind, Option.pure_def, Option.some_bind] at h
        cases hrec : fillChildren pop fits m rest with
        | none => rw [hrec] at h; simp at h
        | some cs =>
          rw [hrec] at h
          simp only [Option.some_bind] at h
          cases h
          rcases List.mem_cons.1 hc with rfl | hc2
          · exact makeChild_perm hpop (hrs r (List.mem_cons_self r rest)) hmc
          · exact ih rest (fun r2 h2 => hrs r2 (List.mem_cons_of_mem r h2))
              cs hrec c hc2

theorem eliteIndices_lt (fits : List (WithTop ℚ)) :
    ∀ i ∈ eliteIndices fits, i < fits.length := by
  intro i hi
  have h1 : i ∈ (List.range fits.length).mergeSort
      (fun i j => decide (fits.getD j 0 ≤ fits.getD i 0)) :=
    List.mem_of_mem_take hi
  exact List.mem_range.1
    ((List.mergeSort_perm (List.range fits.length) _).mem_iff.1 h1)

theorem nextGenPop_perm {n : ℕ} {pop : List Chrom} {fits : List (WithTop ℚ)}
    {rs : List ChildRand} {newPop : List Chrom}
    (hpop : ∀ x ∈ pop, x.Perm (baseGene n))
    (hlen : fits.length = pop.length)
    (hrs : ∀ r ∈ rs, RandOK pop.length n r)
    (h : nextGenPop pop fits rs = some newPop) :
    ∀ c ∈ newPop, c.Perm (baseGene n) := by
  rw [nextGenPop] at h
  cases hfc : fillChildren pop fits
      (POPULATION_SIZE -
        ((eliteIndices fits).map fun i => pop.getD i []).length) rs with
  | none => rw [hfc] at h; simp at h
  | some rest =>
    rw [hfc] at h
    simp only [Option.bind_eq_bind, Option.pure_def, Option.some_bind] at h
    cases h
    intro c hc
    rcases List.mem_append.1 hc with hcel | hcr
    · rcases List.mem_map.1 hcel with ⟨i, hi, rfl⟩
      have hilt : i < pop.length := hlen ▸ eliteIndices_lt fits i hi
      rw [List.getD_eq_getElem _ _ hilt]
      exact hpop _ (List.getElem_mem hilt)
    · exact fillChildren_perm hpop _ rs hrs rest hfc c hcr

theorem fillChildren_length {pop : List Chrom} {fits : List (WithTop ℚ)} :
    ∀ (k : ℕ) (rs : List ChildRand) (out : List Chrom),
      fillChildren pop fits k rs = some out → out.length = k := by
  intro k
  induction k with
  | zero =>
    intro rs out h
    rw [fillChildren] at h
    cases h
    rfl
  | succ m ih =>
    intro rs out h
    cases rs with
    | nil => rw [fillChildren] at h; exact Option.noConfusion h
    | cons r rest =>
      rw [fillChildren] at h
      cases hmc : makeChild pop fits r with
      | none => rw [hmc] at h; simp at h
      | some c0 =>
        rw [hmc] at h
        simp only [Option.bind_eq_bind, Option.pure_def, Option.some_bind] at h
        cases hrec : fillChildren pop fits m rest with
        | none => rw [hrec] at h; simp at h
        | some cs =>
          rw [hrec] at h
          simp only [Option.some_bind] at h
          cases h
          simp [ih rest cs hrec]

theorem evalPop_length {g : Coord → Coord → ℚ} {consider : Bool}
    {tc : List (String × String)} {rp : List String} :
    ∀ (pop : List Chrom) (st : Option BestRec) fits st',
      evalPop g consider tc rp pop st = some (fits, st') →
      fits.length = pop.length := by
  intro pop
  induction pop with
  | nil =>
    intro st fits st' h
    rw [evalPop] at h
    cases h
    rfl
  | cons c cs ih =>
    intro st fits st' h
    rw [evalPop, evalOne] at h
    cases hm : calculate_route_metrics g (materialize rp c) consider tc with
    | none => rw [hm] at h; simp at h
    | some v =>
      obtain ⟨ss, d, t⟩ := v
      rw [hm] at h
      simp only [Option.bind_eq_bind, Option.pure_def, Option.some_bind] at h
      cases hrec : evalPop g consider tc rp cs (updateBest st c ss d t) with
      | none => rw [hrec] at h; simp at h
      | some w =>
        obtain ⟨fs, st2⟩ := w
        rw [hrec] at h
        simp only [Option.some_bind] at h
        cases h
        simp [ih _ _ _ hrec]

theorem eliteIndices_length (fits : List (WithTop ℚ)) :
    (eliteIndices fits).length = min ELITISM_COUNT fits.length := by
  rw [eliteIndices, List.length_take, List.length_mergeSort, List.length_range]

theorem nextGenPop_length {pop : List Chrom} {fits : List (WithTop ℚ)}
    {rs : List ChildRand} {newPop : List Chrom}
    (hlen : fits.length = pop.length)
    (hp : pop.length = POPULATION_SIZE)
    (h : nextGenPop pop fits rs = some newPop) :
    newPop.length = POPULATION_SIZE := by
  rw [nextGenPop] at h
  cases hfc : fillChildren pop fits
      (POPULATION_SIZE -
        ((eliteIndices fits).map fun i => pop.getD i []).length) rs with
  | none => rw [hfc] at h; simp at h
  | some rest =>
    rw [hfc] at h
    simp only [Option.bind_eq_bind, Option.pure_def, Option.some_bind] at h
    cases h
    have h1 := fillChildren_length _ _ _ hfc
    have h2 : ((eliteIndices fits).map fun i => pop.getD i []).length =
        min ELITISM_COUNT fits.length := by
      rw [List.length_map, eliteIndices_length]
    rw [List.length_append, h1, h2, hlen, hp]
    rfl

theorem gaStep_inv {n : ℕ} {g : Coord → Coord → ℚ} {consider : Bool}
    {tc : List (String × String)} {rp : List String} {st st2 : GAState}
    {rs : List ChildRand}
    (hpop : ∀ c ∈ st.population, c.Perm (baseGene n))
    (hlen : st.population.length = POPULATION_SIZE)
    (hrs : ∀ r ∈ rs, RandOK POPULATION_SIZE n r)
    (h : gaStep g consider tc rp st rs = some st2) :
    (∀ c ∈ st2.population, c.Perm (baseGene n)) ∧
      st2.population.length = POPULATION_SIZE := by
  rw [gaStep] at h
  cases hev : evalPop g consider tc rp st.population st.best with
  | none => rw [hev] at h; simp at h
  | some w =>
    obtain ⟨fits, best2⟩ := w
    rw [hev] at h
    simp only [Option.bind_eq_bind, Option.pure_def, Option.some_bind] at h
    cases hng : nextGenPop st.population fits rs with
    | none => rw [hng] at h; simp at h
    | some pop2 =>
      rw [hng] at h
      simp only [Option.some_bind] at h
      cases h
      have hfl : fits.length = st.population.length :=
        evalPop_length _ _ _ _ hev
      refine ⟨?_, nextGenPop_length hfl hlen hng⟩
      intro c hc
      exact nextGenPop_perm hpop hfl (by rw [hlen]; exact hrs) hng c hc

theorem runGenerations_inv {n : ℕ} {g : Coord → Coord → ℚ} {consider : Bool}
    {tc : List (String × String)} {rp : List String} :
    ∀ (fuel : ℕ) (st : GAState) (rand : List (List ChildRand)) (stf : GAState),
      (∀ c ∈ st.population, c.Perm (baseGene n)) →
      st.population.length = POPULATION_SIZE →
      (∀ blk ∈ rand, ∀ r ∈ blk, RandOK POPULATION_SIZE n r) →
      runGenerations g consider tc rp fuel st rand = some stf →
      (∀ c ∈ stf.population, c.Perm (baseGene n)) ∧
        stf.population.length = POPULATION_SIZE := by
  intro fuel
  induction fuel with
  | zero =>
    intro st rand stf hpop hlen _ h
    rw [runGenerations] at h
    cases h
    exact ⟨hpop, hlen⟩
  | succ m ih =>
    intro st rand stf hpop hlen hrand h
    cases rand with
    | nil => rw [runGenerations] at h; exact Option.noConfusion h
    | cons blk rest =>
      rw [runGenerations] at h
      cases hstep : gaStep g consider tc rp st blk with
      | none => rw [hstep] at h; simp at h
      | some st1 =>
        rw [hstep] at h
        simp only [Option.bind_eq_bind, Option.pure_def, Option.some_bind] at h
        obtain ⟨hp1, hl1⟩ := gaStep_inv hpop hlen
          (hrand blk (List.mem_cons_self blk rest)) hstep
        exact ih st1 rest stf hp1 hl1
          (fun b hb r hr => hrand b (List.mem_cons_of_mem blk hb) r hr) h

/-- C4: validity of individuals — the crossover child of two valid
permutations is a valid permutation, swap mutation preserves validity,
every member of a generation built by elitism + tournament/crossover/
mutation from a valid population is valid, the invariant carries through
the whole generational loop (initial shuffles are valid by the shuffle
contract), and a valid individual materializes to a route with the depot
first, the disposal site last and the stops visited exactly once. -/
theorem claim_C4 (n : ℕ) :
    (∀ (p1 p2 : Chrom) (cp : ℕ), p1.Perm (baseGene n) → p2.Perm (baseGene n) →
        (crossoverChild p1 p2 cp).Perm (baseGene n)) ∧
      (∀ (c : Chrom) (i j : ℕ), c.Perm (baseGene n) → i < n → j < n → i ≠ j →
        (swapMut c i j).Perm (baseGene n)) ∧
      (∀ (pop : List Chrom) (fits : List (WithTop ℚ)) (rs : List ChildRand)
          (newPop : List Chrom),
        (∀ x ∈ pop, x.Perm (baseGene n)) → fits.length = pop.length →
        (∀ r ∈ rs, RandOK pop.length n r) →
        nextGenPop pop fits rs = some newPop →
        ∀ c ∈ newPop, c.Perm (baseGene n)) ∧
      (∀ (g : Coord → Coord → ℚ) (consider : Bool)
          (tc : List (String × String)) (rp : List String) (fuel : ℕ)
          (st : GAState) (rand : List (List ChildRand)) (stf : GAState),
        (∀ c ∈ st.population, c.Perm (baseGene n)) →
        st.population.length = POPULATION_SIZE →
        (∀ blk ∈ rand, ∀ r ∈ blk, RandOK POPULATION_SIZE n r) →
        runGenerations g consider tc rp fuel st rand = some stf →
        ∀ c ∈ stf.population, c.Perm (baseGene n)) ∧
      (∀ (stops : List String) (c : Chrom), stops.length = n →
        c.Perm (baseGene n) →
        materialize (DEPOT_NAME :: (stops ++ [TPA_NAME])) c =
          DEPOT_NAME ::
            (c.map fun i => (DEPOT_NAME :: (stops ++ [TPA_NAME])).getD i "") ++
            [TPA_NAME] ∧
          (c.map fun i =>
            (DEPOT_NAME :: (stops ++ [TPA_NAME])).getD i "").Perm stops) := by
  refine ⟨?_, ?_, ?_, ?_, ?_⟩
  · intro p1 p2 cp h1 h2
    exact crossoverChild_perm h1 h2 cp
  · intro c i j hc hi hj hij
    have hlen : c.length = n := by
      rw [hc.length_eq, baseGene, List.length_range']
    exact (swapMut_perm c i j (by omega) (by omega) hij).trans hc
  · intro pop fits rs newPop hpop hlen hrs hng
    exact nextGenPop_perm hpop hlen hrs hng
  · intro g consider tc rp fuel st rand stf hpop hlen hrand h
    exact (runGenerations_inv fuel st rand stf hpop hlen hrand h).1
  · intro stops c hlen hc
    subst hlen
    exact ⟨materialize_structure stops c, materialize_interior_perm hc⟩

set_option maxRecDepth 10000 in
unseal List.merge List.mergeSort in
/-- Witness for C4 at concrete inputs: a crossover child, a swap, a full
generation transition on a population of 100 copies of `[1, 2]` (with
valid oracle draws and no crossover or mutation coins), a zero-length
loop run, and a materialized interior. -/
theorem claim_C4_witness :
    (crossoverChild [1, 2] [2, 1] 1).Perm (baseGene 2) ∧
      (swapMut [1, 2] 0 1).Perm (baseGene 2) ∧
      (∀ c ∈ List.replicate 100 ([1, 2] : Chrom), c.Perm (baseGene 2)) ∧
      ([1, 2] : Chrom).Perm (baseGene 2) ∧
      (([2, 1].map fun i =>
          (DEPOT_NAME :: (["TPS_DAGO", "TPS_CIHAMPELAS"] ++ [TPA_NAME])).getD
            i "").Perm
        ["TPS_DAGO", "TPS_CIHAMPELAS"]) := by
  have hpop : ∀ c ∈ List.replicate 100 ([1, 2] : Chrom),
      c.Perm (baseGene 2) := by
    intro c hc
    rw [List.eq_of_mem_replicate hc]
    decide
  have hrand : ∀ r ∈ List.replicate 98
      (ChildRand.mk [0, 1, 2, 3, 4] [0, 1, 2, 3, 4] false 1 false 0 0),
      RandOK (List.replicate 100 ([1, 2] : Chrom)).length 2 r := by
    intro r hr
    rw [List.eq_of_mem_replicate hr]
    refine ⟨⟨rfl, by decide, by decide⟩, ⟨rfl, by decide, by decide⟩, ?_, ?_⟩
    · intro h
      exact Bool.noConfusion h
    · intro h
      exact Bool.noConfusion h
  have hng : nextGenPop (List.replicate 100 ([1, 2] : Chrom))
      (List.replicate 100 (0 : WithTop ℚ))
      (List.replicate 98
        (ChildRand.mk [0, 1, 2, 3, 4] [0, 1, 2, 3, 4] false 1 false 0 0)) =
      some (List.replicate 100 ([1, 2] : Chrom)) := rfl
  refine ⟨(claim_C4 2).1 [1, 2] [2, 1] 1 (by decide) (by decide),
    (claim_C4 2).2.1 [1, 2] 0 1 (by decide) (by decide) (by decide) (by decide),
    fun c hc => (claim_C4 2).2.2.1 (List.replicate 100 [1, 2])
      (List.replicate 100 0) _ _ hpop (by simp) hrand hng c hc,
    (claim_C4 2).2.2.2.1 (fun _ _ => 1) false [] [] 0
      ⟨List.replicate 100 [1, 2], none⟩ [] ⟨List.replicate 100 [1, 2], none⟩
      hpop (by simp [POPULATION_SIZE]) (by simp) rfl [1, 2] (by simp),
    ((claim_C4 2).2.2.2.2 ["TPS_DAGO", "TPS_CIHAMPELAS"] [2, 1] rfl
      (by decide)).2⟩

/-- The fitness of an individual as a function of the individual alone
(the loop recomputes it deterministically each generation); the `none`
branch is unreachable whenever the evaluation pass succeeds. -/
def routeFitness (g : Coord → Coord → ℚ) (consider : Bool)
    (tc : List (String × String)) (rp : List String) (c : Chrom) :
    WithTop ℚ :=
  match calculate_route_metrics g (materialize rp c) consider tc with
  | some v => fitnessOf v.2.1
  | none => ⊤

theorem evalPop_fits_eq {g : Coord → Coord → ℚ} {consider : Bool}
    {tc : List (String × String)} {rp : List String} :
    ∀ (pop : List Chrom) (st : Option BestRec) fits st',
      evalPop g consider tc rp pop st = some (fits, st') →
      fits = pop.map (routeFitness g consider tc rp) := by
  intro pop
  induction pop with
  | nil =>
    intro st fits st' h
    rw [evalPop] at h
    cases h
    rfl
  | cons c cs ih =>
    intro st fits st' h
    rw [evalPop, evalOne] at h
    cases hm : calculate_route_metrics g (materialize rp c) consider tc with
    | none => rw [hm] at h; simp at h
    | some v =>
      obtain ⟨ss, d, t⟩ := v
      rw [hm] at h
      simp only [Option.bind_eq_bind, Option.pure_def, Option.some_bind] at h
      cases hrec : evalPop g consider tc rp cs (updateBest st c ss d t) with
      | none => rw [hrec] at h; simp at h
      | some w =>
        obtain ⟨fs, st2⟩ := w
        rw [hrec] at h
        simp only [Option.some_bind] at h
        cases h
        rw [List.map_cons, ← ih _ _ _ hrec]
        congr 1
        rw [routeFitness, hm]

theorem elite_head_max (fits : List (WithTop ℚ)) (hlen0 : 0 < fits.length) :
    ∃ i0, i0 ∈ eliteIndices fits ∧ i0 < fits.length ∧
      ∀ j < fits.length, fits.getD j 0 ≤ fits.getD i0 0 := by
  have htrans : ∀ a b c : ℕ,
      (fun i j => decide (fits.getD j 0 ≤ fits.getD i 0)) a b = true →
      (fun i j => decide (fits.getD j 0 ≤ fits.getD i 0)) b c = true →
      (fun i j => decide (fits.getD j 0 ≤ fits.getD i 0)) a c = true := by
    intro a b c h1 h2
    simp only [decide_eq_true_eq] at h1 h2 ⊢
    exact le_trans h2 h1
  have htotal : ∀ a b : ℕ,
      ((fun i j => decide (fits.getD j 0 ≤ fits.getD i 0)) a b ||
        (fun i j => decide (fits.getD j 0 ≤ fits.getD i 0)) b a) = true := by
    intro a b
    simp only [Bool.or_eq_true, decide_eq_true_eq]
    exact le_total _ _
  have hsorted := List.sorted_mergeSort htrans htotal (List.range fits.length)
  have hperm := List.mergeSort_perm (List.range fits.length)
    (fun i j => decide (fits.getD j 0 ≤ fits.getD i 0))
  have hslen : ((List.range fits.length).mergeSort
      (fun i j => decide (fits.getD j 0 ≤ fits.getD i 0))).length =
      fits.length := by
    rw [List.length_mergeSort, List.length_range]
  cases hs : (List.range fits.length).mergeSort
      (fun i j => decide (fits.getD j 0 ≤ fits.getD i 0)) with
  | nil =>
    rw [hs] at hslen
    simp at hslen
    omega
  | cons i0 restIdx =>
    refine ⟨i0, ?_, ?_, ?_⟩
    · rw [eliteIndices, hs, ELITISM_COUNT, List.take_succ_cons]
      exact List.mem_cons_self _ _
    · have : i0 ∈ List.range fits.length := by
        rw [← hperm.mem_iff, hs]
        exact List.mem_cons_self _ _
      exact List.mem_range.1 this
    · intro j hj
      have hjmem : j ∈ i0 :: restIdx := by
        rw [← hs, hperm.mem_iff]
        exact List.mem_range.2 hj
      rcases List.mem_cons.1 hjmem with rfl | hj2
      · exact le_refl _
      · have hp := (List.pairwise_cons.1 (hs ▸ hsorted)).1 j hj2
        exact of_decide_eq_true hp

theorem elite_max_mono {F : Chrom → WithTop ℚ} {pop : List Chrom}
    {fits : List (WithTop ℚ)} {rs : List ChildRand} {newPop : List Chrom}
    (hfits : fits = pop.map F)
    (hng : nextGenPop pop fits rs = some newPop) :
    (pop.map F).maximum ≤ (newPop.map F).maximum := by
  cases pop with
  | nil => simp
  | cons p0 ps =>
    have hlen0 : 0 < fits.length := by rw [hfits]; simp
    obtain ⟨i0, hi0mem, hi0lt, hmax⟩ := elite_head_max fits hlen0
    have hplen : i0 < (p0 :: ps).length := by
      rw [hfits, List.length_map] at hi0lt
      exact hi0lt
    have helmem : (p0 :: ps).getD i0 [] ∈ newPop := by
      rw [nextGenPop] at hng
      cases hfc : fillChildren (p0 :: ps) fits
          (POPULATION_SIZE -
            ((eliteIndices fits).map fun i => (p0 :: ps).getD i []).length)
          rs with
      | none => rw [hfc] at hng; simp at hng
      | some rest =>
        rw [hfc] at hng
        simp only [Option.bind_eq_bind, Option.pure_def,
          Option.some_bind] at hng
        cases hng
        exact List.mem_append_left _
          (List.mem_map_of_mem (fun i => (p0 :: ps).getD i []) hi0mem)
    have hFval : F ((p0 :: ps).getD i0 []) = fits.getD i0 0 := by
      rw [hfits]
      rw [List.getD_eq_getElem (List.map F (p0 :: ps)) 0 (by simpa using hplen)]
      rw [List.getElem_map, List.getD_eq_getElem _ _ hplen]
    cases hM : ((p0 :: ps).map F).maximum with
    | bot => exact bot_le
    | coe M =>
      obtain ⟨hMmem, hMub⟩ := List.maximum_eq_coe_iff.1 hM
      obtain ⟨j, hj, hMj⟩ := List.mem_iff_getElem.1 hMmem
      have hjf : j < fits.length := by
        rw [hfits]
        simpa using hj
      have hMle : M ≤ fits.getD i0 0 := by
        rw [← hMj, show ((p0 :: ps).map F)[j] = fits.getD j 0 from by
          rw [hfits, List.getD_eq_getElem (List.map F (p0 :: ps)) 0
            (by simpa using hj)]]
        exact hmax j hjf
      refine le_trans ?_
        (List.le_maximum_of_mem' (List.mem_map_of_mem F helmem))
      exact WithBot.coe_le_coe.2 (by rw [hFval]; exact hMle)

/-- C5: `ELITISM_COUNT = 2`; the next generation starts with the copies
of the top-`ELITISM_COUNT` individuals by fitness (before the
crossover/mutation children fill the remainder); consequently the best
value of the per-individual fitness function never decreases from one
generation to the next; and the fitness list computed by the evaluation
pass is exactly the per-individual fitness function mapped over the
population. -/
theorem claim_C5 (g : Coord → Coord → ℚ) (consider : Bool)
    (tc : List (String × String)) (rp : List String) :
    ELITISM_COUNT = 2 ∧
      (∀ (pop : List Chrom) (fits : List (WithTop ℚ)) (rs : List ChildRand)
          (newPop : List Chrom),
        nextGenPop pop fits rs = some newPop →
        newPop.take (eliteIndices fits).length =
          (eliteIndices fits).map fun i => pop.getD i []) ∧
      (∀ (F : Chrom → WithTop ℚ) (pop : List Chrom)
          (fits : List (WithTop ℚ)) (rs : List ChildRand)
          (newPop : List Chrom),
        fits = pop.map F → nextGenPop pop fits rs = some newPop →
        (pop.map F).maximum ≤ (newPop.map F).maximum) ∧
      (∀ (pop : List Chrom) (st : Option BestRec) fits st',
        evalPop g consider tc rp pop st = some (fits, st') →
        fits = pop.map (routeFitness g consider tc rp)) := by
  refine ⟨rfl, ?_, ?_, ?_⟩
  · intro pop fits rs newPop hng
    rw [nextGenPop] at hng
    cases hfc : fillChildren pop fits
        (POPULATION_SIZE -
          ((eliteIndices fits).map fun i => pop.getD i []).length) rs with
    | none => rw [hfc] at hng; simp at hng
    | some rest =>
      rw [hfc] at hng
      simp only [Option.bind_eq_bind, Option.pure_def, Option.some_bind] at hng
      cases hng
      rw [show (eliteIndices fits).length =
          ((eliteIndices fits).map fun i => pop.getD i []).length from
        (List.length_map _ _).symm]
      exact List.take_left _ _
  · intro F pop fits rs newPop hfits hng
    exact elite_max_mono hfits hng
  · intro pop st fits st' h
    exact evalPop_fits_eq pop st fits st' h

set_option maxRecDepth 10000 in
unseal List.merge List.mergeSort in
/-- Witness for C5: the generation transition on 100 copies of `[1, 2]`
with constant fitness — the elites head the next generation and the best
fitness does not decrease — plus the fitness list of a one-individual
evaluation pass. -/
theorem claim_C5_witness :
    ((List.replicate 100 ([1, 2] : Chrom)).take
        (eliteIndices (List.replicate 100 (0 : WithTop ℚ))).length =
      (eliteIndices (List.replicate 100 (0 : WithTop ℚ))).map fun i =>
        (List.replicate 100 ([1, 2] : Chrom)).getD i []) ∧
      ((List.replicate 100 ([1, 2] : Chrom)).map
          fun _ => (0 : WithTop ℚ)).maximum ≤
        ((List.replicate 100 ([1, 2] : Chrom)).map
          fun _ => (0 : WithTop ℚ)).maximum ∧
      ([fitnessOf (round1 (1 + (1 + 0)))] : List (WithTop ℚ)) =
        [[1]].map (routeFitness (fun _ _ => 1) false []
          ["DEPO", "TPS_DAGO", "TPA_SARIMUKTI"]) := by
  have hng : nextGenPop (List.replicate 100 ([1, 2] : Chrom))
      (List.replicate 100 (0 : WithTop ℚ))
      (List.replicate 98
        (ChildRand.mk [0, 1, 2, 3, 4] [0, 1, 2, 3, 4] false 1 false 0 0)) =
      some (List.replicate 100 ([1, 2] : Chrom)) := rfl
  have hev : evalPop (fun _ _ => 1) false []
      ["DEPO", "TPS_DAGO", "TPA_SARIMUKTI"] [[1]] none =
      some ([fitnessOf (round1 (1 + (1 + 0)))],
        some ⟨[1], [⟨"DEPO", "TPS_DAGO", round1 1, "Light", round1 (1 * 2)⟩,
          ⟨"TPS_DAGO", "TPA_SARIMUKTI", round1 1, "Light", round1 (1 * 2)⟩],
          round1 (1 + (1 + 0)), round1 (1 * 2 + (1 * 2 + 0))⟩) := by
    have hcm : calculate_route_metrics (fun _ _ => 1)
        (materialize ["DEPO", "TPS_DAGO", "TPA_SARIMUKTI"] [1]) false [] =
        some ([⟨"DEPO", "TPS_DAGO", round1 1, "Light", round1 (1 * 2)⟩,
          ⟨"TPS_DAGO", "TPA_SARIMUKTI", round1 1, "Light", round1 (1 * 2)⟩],
          round1 (1 + (1 + 0)), round1 (1 * 2 + (1 * 2 + 0))) := rfl
    rw [evalPop, evalOne, hcm]
    simp only [Option.bind_eq_bind, Option.pure_def, Option.some_bind]
    rw [evalPop]
    simp [updateBest, bestDist]
  refine ⟨?_, ?_, ?_⟩
  · exact (claim_C5 (fun _ _ => 1) false [] []).2.1
      (List.replicate 100 [1, 2]) (List.replicate 100 0) _ _ hng
  · exact (claim_C5 (fun _ _ => 1) false [] []).2.2.1 (fun _ => 0)
      (List.replicate 100 [1, 2]) (List.replicate 100 0) _ _ (by simp) hng
  · exact (claim_C5 (fun _ _ => 1) false []
      ["DEPO", "TPS_DAGO", "TPA_SARIMUKTI"]).2.2.2 [[1]] none _ _ hev

/-! ### The single-stop crash (C1) -/

theorem makeChild_crossover_crash {pop : List Chrom}
    {fits : List (WithTop ℚ)} {r : ChildRand}
    (hlen : ∀ x ∈ pop, x.length ≤ 1) (hcc : r.crossCoin = true) :
    makeChild pop fits r = none := by
  rw [makeChild]
  by_cases h5 : 5 ≤ pop.length
  · rw [if_pos h5]
    have hp1 : (tournamentPick pop fits r.sample1).length ≤ 1 := by
      rw [tournamentPick]
      rcases Nat.lt_or_ge (pymaxBy (fun i => fits.getD i 0) r.sample1)
          pop.length with hlt | hge
      · rw [List.getD_eq_getElem _ _ hlt]
        exact hlen _ (List.getElem_mem hlt)
      · rw [List.getD_eq_default _ _ hge]
        simp
    rw [if_pos hcc, if_neg (by omega)]
    rfl
  · rw [if_neg h5]

theorem evalPop_isSome {g : Coord → Coord → ℚ} {consider : Bool}
    {tc : List (String × String)} {rp : List String} :
    ∀ (pop : List Chrom) (st : Option BestRec),
      (∀ c ∈ pop,
        calculate_route_metrics g (materialize rp c) consider tc ≠ none) →
      ∃ fits st', evalPop g consider tc rp pop st = some (fits, st') := by
  intro pop
  induction pop with
  | nil => intro st _; exact ⟨[], st, rfl⟩
  | cons c cs ih =>
    intro st hres
    cases hm : calculate_route_metrics g (materialize rp c) consider tc with
    | none => exact absurd hm (hres c (List.mem_cons_self c cs))
    | some v =>
      obtain ⟨ss, d, t⟩ := v
      obtain ⟨fits, st', hrec⟩ := ih (updateBest st c ss d t)
        (fun x hx => hres x (List.mem_cons_of_mem c hx))
      refine ⟨fitnessOf d :: fits, st', ?_⟩
      rw [evalPop, evalOne, hm]
      simp only [Option.bind_eq_bind, Option.pure_def, Option.some_bind, hrec]

/-- C1 (code bug): with a single full stop, whatever the geodesic
distances, any child draw that takes the crossover branch makes
`genetic_algorithm` raise — the model returns `none`, corresponding to
`random.randint(1, len(parent1) - 1)` being `randint(1, 0)` (an empty
range, `ValueError`) for the one-gene parent — instead of returning the
unique route depot → stop → disposal site as the claim states. -/
theorem claim_C1 (g : Coord → Coord → ℚ) :
    genetic_algorithm g [("TPS_DAGO", true)] false []
      (List.replicate 100 [1])
      [[ChildRand.mk [0, 1, 2, 3, 4] [0, 1, 2, 3, 4] true 1 false 0 0]] =
      none := by
  rw [genetic_algorithm]
  rw [if_neg (by simp [show tpsFull [("TPS_DAGO", true)] = ["TPS_DAGO"]
    from rfl])]
  have hL : lookupAll ([DEPOT_NAME] ++ tpsFull [("TPS_DAGO", true)] ++
      [TPA_NAME]) =
      some [(-6.890682913380755, 107.62539534137673),
        (-6.883993, 107.613144),
        (-6.800449378428952, 107.34929092078416)] := rfl
  simp only [hL, Option.bind_eq_bind, Option.pure_def, Option.some_bind]
  have hres : ∀ c ∈ List.replicate 100 ([1] : Chrom),
      calculate_route_metrics g
        (materialize ([DEPOT_NAME] ++ tpsFull [("TPS_DAGO", true)] ++
          [TPA_NAME]) c) false [] ≠ none := by
    have hm1 : ∃ v, calculate_route_metrics g
        (materialize ([DEPOT_NAME] ++ tpsFull [("TPS_DAGO", true)] ++
          [TPA_NAME]) [1]) false [] = some v := ⟨_, rfl⟩
    intro c hc
    rw [List.eq_of_mem_replicate hc]
    obtain ⟨v, hv⟩ := hm1
    rw [hv]
    simp
  obtain ⟨fits, st', hev⟩ := evalPop_isSome (List.replicate 100 [1]) none hres
  have hfl : fits.length = 100 :=
    (evalPop_length _ _ _ _ hev).trans (by simp)
  have hmk : makeChild (List.replicate 100 ([1] : Chrom)) fits
      (ChildRand.mk [0, 1, 2, 3, 4] [0, 1, 2, 3, 4] true 1 false 0 0) =
      none :=
    makeChild_crossover_crash
      (fun x hx => by rw [List.eq_of_mem_replicate hx]; exact le_refl 1) rfl
  have hng : nextGenPop (List.replicate 100 ([1] : Chrom)) fits
      [ChildRand.mk [0, 1, 2, 3, 4] [0, 1, 2, 3, 4] true 1 false 0 0] =
      none := by
    rw [nextGenPop]
    have h98 : POPULATION_SIZE -
        ((eliteIndices fits).map fun i =>
          (List.replicate 100 ([1] : Chrom)).getD i []).length = 98 := by
      rw [List.length_map, eliteIndices_length, hfl]
      rfl
    rw [h98, show (98 : ℕ) = 97 + 1 from rfl, fillChildren, hmk]
    rfl
  have hgs : gaStep g false []
      ([DEPOT_NAME] ++ tpsFull [("TPS_DAGO", true)] ++ [TPA_NAME])
      ⟨List.replicate 100 [1], none⟩
      [ChildRand.mk [0, 1, 2, 3, 4] [0, 1, 2, 3, 4] true 1 false 0 0] =
      none := by
    rw [gaStep, hev]
    simp only [Option.bind_eq_bind, Option.pure_def, Option.some_bind]
    rw [hng]
    rfl
  rw [show (GENERATIONS : ℕ) = 299 + 1 from rfl, runGenerations, hgs]
  rfl

end RouteOpt
